import Mathlib

/-!
Verification of the CodeCommentTranslator repository.

The Python sources (src/file_detector.py, src/language_detector.py) are
shallowly embedded below.  File contents and comment texts are modelled as
`List Char`; Python dictionaries keyed by line number are modelled as
association lists where a later binding shadows an earlier one (matching
the overwrite semantics of repeated `d[k] = v` assignments); functions that
can raise are modelled in `Except`.
-/

set_option maxHeartbeats 1000000

namespace CodeCommentTranslator

/-- Python whitespace: the characters for which str.isspace() is true, which
is also the character class matched by the regex shorthand for whitespace on
str patterns. -/
def pyIsSpace (c : Char) : Bool :=
  decide ((9 ≤ c.toNat ∧ c.toNat ≤ 13) ∨ (28 ≤ c.toNat ∧ c.toNat ≤ 31) ∨ c.toNat = 32 ∨
    c.toNat = 0x85 ∨ c.toNat = 0xa0 ∨ c.toNat = 0x1680 ∨
    (0x2000 ≤ c.toNat ∧ c.toNat ≤ 0x200a) ∨ c.toNat = 0x2028 ∨ c.toNat = 0x2029 ∨
    c.toNat = 0x202f ∨ c.toNat = 0x205f ∨ c.toNat = 0x3000)

/-- Drop a trailing run of characters satisfying p. -/
def dropTrailingWhile (p : Char → Bool) (l : List Char) : List Char :=
  (l.reverse.dropWhile p).reverse

/-- Python str.strip() with no arguments: remove leading and trailing whitespace. -/
def pyStrip (l : List Char) : List Char :=
  dropTrailingWhile pyIsSpace (l.dropWhile pyIsSpace)

namespace LanguageDetector

/-- The character class of PATTERNS for Chinese: the CJK Unified Ideographs range. -/
def isChineseChar (c : Char) : Bool := decide (0x4e00 ≤ c.toNat ∧ c.toNat ≤ 0x9fff)

/-- The character class of PATTERNS for Japanese: the Hiragana and Katakana ranges. -/
def isKanaChar (c : Char) : Bool :=
  decide ((0x3040 ≤ c.toNat ∧ c.toNat ≤ 0x309f) ∨ (0x30a0 ≤ c.toNat ∧ c.toNat ≤ 0x30ff))

/-- The characters allowed by is_english: string.ascii_letters, string.digits,
string.punctuation (ASCII codes 33 to 126 together cover those three), plus
space, newline, tab and carriage return. -/
def allowedEnglishChar (c : Char) : Bool :=
  decide ((33 ≤ c.toNat ∧ c.toNat ≤ 126) ∨
    c.toNat = 32 ∨ c.toNat = 10 ∨ c.toNat = 9 ∨ c.toNat = 13)

/-- LanguageDetector.is_english: strip the text, then check every character is
an allowed English character. -/
def is_english (text : List Char) : Bool :=
  (pyStrip text).all allowedEnglishChar

/-- The marker-stripping substitution at the top of detect_language.  The
regex removes one leading run of slash, asterisk, whitespace or hash
characters (the first alternative, anchored at the start), and one maximal
trailing run of asterisk, slash or whitespace characters (the second
alternative, anchored at the end; a run that merely reaches the position
before a final newline always extends through that newline as well, so the
alternative fires exactly on an all-class suffix). -/
def stripCommentMarkers (text : List Char) : List Char :=
  dropTrailingWhile (fun c => c == '*' || c == '/' || pyIsSpace c)
    (text.dropWhile (fun c => c == '/' || c == '*' || pyIsSpace c || c == '#'))

/-- LanguageDetector.detect_language: strip comment markers and whitespace,
return None on empty, then test Chinese, Japanese, English in order. -/
def detect_language (text : List Char) : Option String :=
  let t := pyStrip (stripCommentMarkers text)
  if t.isEmpty then none
  else if t.any isChineseChar then some "zh"
  else if t.any isKanaChar then some "jp"
  else if is_english t then some "en"
  else none

end LanguageDetector

/-- The kinds of comment record produced by the extractors. -/
inductive CommentType
  | inline
  | multiline
  | docstring
deriving DecidableEq

/-- One comment record, the per-line dictionary value produced by
extract_comments.  The field called end in the source is called stop here
(end is a Lean keyword); the language-specific extra sub-dictionary is
inlined, with default values for the variants that do not set a field. -/
structure CommentInfo where
  content : List Char
  start : Nat
  stop : Nat
  original : List Char
  type : CommentType
  positions : Nat × Nat := (0, 0)
  line_count : Nat := 1
  has_code : Bool := false
  quote_type : List Char := []
deriving DecidableEq

/-- The comments dictionary: an association list keyed by 1-based line
number, in insertion order; a later binding shadows an earlier one, matching
assignment to a dict key. -/
abbrev Comments := List (Nat × CommentInfo)

/-- Dictionary lookup: the last binding for the key wins, matching repeated
dict assignment. -/
def dget (m : Comments) (k : Nat) : Option CommentInfo :=
  ((m.filter (fun p => p.1 == k)).getLast?).map (fun p => p.2)

/-- Python str.split on the newline separator. -/
def splitNl : List Char → List (List Char)
  | [] => [[]]
  | c :: rest =>
    if c = '\n' then [] :: splitNl rest
    else
      match splitNl rest with
      | [] => [[c]]
      | l :: ls => (c :: l) :: ls

/-- The newline join applied at the end of replace_comments, the inverse of
splitNl. -/
def joinNl : List (List Char) → List Char
  | [] => []
  | [l] => l
  | l :: ls => l ++ '\n' :: joinNl ls

/-- File position of the start of 1-based line i: the source computes the
sum of len(l) + 1 over the lines before line i. -/
def lineStartPos (lines : List (List Char)) (i : Nat) : Nat :=
  ((lines.take (i - 1)).map (fun l => l.length + 1)).sum

/-- The 1-based line number of file position p: one plus the newline count
of the prefix before p. -/
def lineNumOf (content : List Char) (p : Nat) : Nat :=
  (content.take p).count '\n' + 1

/-- The column of file position p: the length of the last element of the
newline-split prefix before p. -/
def colOf (content : List Char) (p : Nat) : Nat :=
  ((splitNl (content.take p)).getLastD []).length

/-- Membership test for a set of half-open position spans, modelling the
position sets built with range(start_pos, end_pos). -/
def inSpans (spans : List (Nat × Nat)) (p : Nat) : Bool :=
  spans.any (fun se => se.1 ≤ p && p < se.2)

/-- Python substring containment. -/
def containsSub (pat l : List Char) : Bool :=
  l.tails.any (fun t => pat.isPrefixOf t)

/-- Python str.endswith with a single-character suffix. -/
def lastEndsWith (l : List Char) (c : Char) : Bool :=
  l.getLast? == some c

namespace CStyleCommentExtractor

/-- The while loop of CStyleCommentExtractor._is_in_string: scan the text
toggling independent single-quote and double-quote flags; a backslash makes
the scan advance two positions, skipping the escaped character; a quote of
one kind does not toggle while inside the other kind; the result reports
whether the end of the scanned text is inside either kind of string. -/
def quoteLoop : List Char → Bool → Bool → Bool
  | [], in_single_quote, in_double_quote => in_single_quote || in_double_quote
  | ['\\'], in_single_quote, in_double_quote => in_single_quote || in_double_quote
  | '\\' :: _ :: rest, in_single_quote, in_double_quote =>
    quoteLoop rest in_single_quote in_double_quote
  | c :: rest, in_single_quote, in_double_quote =>
    if c = '"' ∧ in_single_quote = false then
      quoteLoop rest in_single_quote (! in_double_quote)
    else if c = '\'' ∧ in_double_quote = false then
      quoteLoop rest (! in_single_quote) in_double_quote
    else quoteLoop rest in_single_quote in_double_quote

/-- CStyleCommentExtractor._is_in_string: truncate the text at pos, then run
the quote-tracking scan over the truncated prefix. -/
def is_in_string (content : List Char) (pos : Nat) : Bool :=
  quoteLoop (content.take pos) false false

/-- Non-overlapping, left-to-right positions of the two-slash inline marker
within one line, as re.finditer produces them. -/
def findDslashFrom : List Char → Nat → List Nat
  | '/' :: '/' :: rest, i => i :: findDslashFrom rest (i + 2)
  | _ :: rest, i => findDslashFrom rest (i + 1)
  | [], _ => []

/-- Index of the first occurrence of the closing star-slash pair. -/
def findCloseBlock : List Char → Option Nat
  | '*' :: '/' :: _ => some 0
  | _ :: rest => (findCloseBlock rest).map (fun j => j + 1)
  | [] => none

/-- Spans (absolute start, absolute end) of the matches of the non-greedy
block comment regex over the whole text, computed by a two-state scan:
outside a comment (state none), a slash-star opens a match at the current
position; inside (state carrying the match start), the first star-slash
closes it, which is exactly the non-greedy behaviour; scanning resumes past
each match, as re.finditer yields non-overlapping matches.  A trailing
slash-star that is never closed yields no match, and since no star-slash
pair remains after it, the regex cannot match anywhere later either. -/
def findBlockComments : List Char → Nat → Option Nat → List (Nat × Nat)
  | '/' :: '*' :: rest, i, none => findBlockComments rest (i + 2) (some i)
  | '*' :: '/' :: rest, i, some s => (s, i + 2) :: findBlockComments rest (i + 2) none
  | _ :: rest, i, st => findBlockComments rest (i + 1) st
  | [], _, _ => []

/-- First substitution of _extract_multiline_content: remove every slash-star
together with the run of whitespace and asterisk characters after it, and
remove a star-slash that is followed only by whitespace up to the end.  The
boolean is true while consuming the run after a slash-star. -/
def stripBlockMarkers : Bool → List Char → List Char
  | true, [] => []
  | true, '/' :: '*' :: rest => stripBlockMarkers true rest
  | true, c :: rest =>
    if c = '*' ∨ pyIsSpace c = true then stripBlockMarkers true rest
    else c :: stripBlockMarkers false rest
  | false, [] => []
  | false, '/' :: '*' :: rest => stripBlockMarkers true rest
  | false, '*' :: '/' :: '*' :: rest => '*' :: stripBlockMarkers true rest
  | false, '*' :: '/' :: rest =>
    if rest.all pyIsSpace then [] else '*' :: '/' :: stripBlockMarkers false rest
  | false, c :: rest => c :: stripBlockMarkers false rest

/-- Second substitution of _extract_multiline_content, in MULTILINE mode: at
a line start, a greedy whitespace run (which may cross newlines) followed by
an asterisk and at most one further whitespace character is removed;
otherwise the scan advances to the next line start.  The first argument is
some acc (the pending whitespace run, reversed) while scanning the
whitespace at a line start — pending because the run is kept when no
asterisk follows it — and none while copying the remainder of a line, on
which the line-anchored pattern cannot match. -/
def stripLineStars : Option (List Char) → List Char → List Char
  | some acc, [] => acc.reverse
  | some acc, c :: rest =>
    if pyIsSpace c then stripLineStars (some (c :: acc)) rest
    else if c = '*' then
      (match rest with
       | [] => []
       | d :: r4 =>
         if d = '\n' then stripLineStars (some []) r4
         else if pyIsSpace d then stripLineStars none r4
         else d :: stripLineStars none r4)
    else acc.reverse ++ c :: stripLineStars none rest
  | none, [] => []
  | none, '\n' :: rest => '\n' :: stripLineStars (some []) rest
  | none, c :: rest => c :: stripLineStars none rest

/-- CStyleCommentExtractor._extract_multiline_content: the two substitutions
followed by a strip. -/
def extract_multiline_content (comment : List Char) : List Char :=
  pyStrip (stripLineStars (some []) (stripBlockMarkers false comment))

/-- The accepted block comment spans: matches whose start is not inside a
string literal.  A skipped match contributes neither a record nor excluded
positions. -/
def acceptedBlocks (content : List Char) : List (Nat × Nat) :=
  (findBlockComments content 0 none).filter (fun se => ! is_in_string content se.1)

/-- One multiline record of the first loop of extract_comments. -/
def multilineRecord (content : List Char) (se : Nat × Nat) : Nat × CommentInfo :=
  let original := (content.take se.2).drop se.1
  (lineNumOf content se.1,
   { content := extract_multiline_content original
     start := colOf content se.1
     stop := se.2
     original := original
     type := CommentType.multiline
     positions := se
     line_count := original.count '\n' + 1 })

/-- The inline records contributed by 1-based line i, in match order: lines
whose stripped form begins with a hash are preprocessor directives and are
skipped; a marker inside an accepted multiline span or inside a string
literal on the line is skipped. -/
def inlineRecordsOfLine (content : List Char) (lines : List (List Char))
    (i : Nat) (line : List Char) : List (Nat × CommentInfo) :=
  if (pyStrip line).head? = some '#' then []
  else
    (findDslashFrom line 0).filterMap (fun pos =>
      let pos_in_file := lineStartPos lines i + pos
      if inSpans (acceptedBlocks content) pos_in_file || is_in_string (line.take pos) pos then
        none
      else
        some (i,
          { content := pyStrip ((line.drop pos).drop 2)
            start := pos
            stop := line.length
            original := line.drop pos
            type := CommentType.inline
            has_code := ! (pyStrip (line.take pos)).isEmpty }))

/-- The bindings produced by the multiline pass, in match order. -/
def multilineRecords (content : List Char) : Comments :=
  (acceptedBlocks content).map (multilineRecord content)

/-- The bindings produced by the line-by-line inline pass, in line and match
order. -/
def inlineRecords (content : List Char) : Comments :=
  (List.enumFrom 1 (splitNl content)).flatMap
    (fun il => inlineRecordsOfLine content (splitNl content) il.1 il.2)

/-- CStyleCommentExtractor.extract_comments: the multiline pass fills the
dictionary first, then the line-by-line inline pass, whose bindings shadow
earlier ones for the same line. -/
def extract_comments (content : List Char) : Comments :=
  multilineRecords content ++ inlineRecords content

end CStyleCommentExtractor

/-- Descending insertion by line number. -/
def insertDescend (p : Nat × List Char) : List (Nat × List Char) → List (Nat × List Char)
  | [] => [p]
  | q :: rest => if q.1 ≤ p.1 then p :: q :: rest else q :: insertDescend p rest

/-- The iteration order sorted(translations.items(), reverse=True) of both
replacement loops: dict keys are distinct, so only the line-number order
matters. -/
def sortDescend : List (Nat × List Char) → List (Nat × List Char)
  | [] => []
  | p :: rest => insertDescend p (sortDescend rest)

namespace CStyleCommentExtractor

/-- One iteration of the replacement loop of replace_comments: the record for
the line is looked up in the extraction of the content argument (a missing key
is the KeyError of the source, modelled as an error carrying the key); an
inline record rewrites its single line, keeping the code prefix when has_code
(an out-of-range line index would be the IndexError of the source, modelled
the same way; it cannot arise for keys the extraction produced); any other
record splices a reformatted block comment over its original line span. -/
def applyEdit (lines : List (List Char)) (line_num : Nat) (translation : List Char)
    (comment_info : CommentInfo) : Except Nat (List (List Char)) :=
  if comment_info.type = CommentType.inline then
    match lines.get? (line_num - 1) with
    | none => Except.error line_num
    | some original_line =>
      if comment_info.has_code then
        Except.ok (lines.set (line_num - 1)
          (original_line.take comment_info.start ++ "// ".toList ++ pyStrip translation))
      else
        Except.ok (lines.set (line_num - 1)
          (List.replicate comment_info.start ' ' ++ "// ".toList ++ pyStrip translation))
  else
    let indentation := List.replicate comment_info.start ' '
    let formatted := (indentation ++ "/*".toList) ::
      ((splitNl translation).map (fun ln => indentation ++ " * ".toList ++ pyStrip ln) ++
        [indentation ++ " */".toList])
    Except.ok (lines.take (line_num - 1) ++ formatted ++
      lines.drop (line_num - 1 + comment_info.line_count))

/-- One full iteration: look up the record in the extraction of the content
argument, then apply the edit. -/
def replaceStep (content : List Char) (lines : List (List Char))
    (kt : Nat × List Char) : Except Nat (List (List Char)) :=
  match dget (extract_comments content) kt.1 with
  | none => Except.error kt.1
  | some comment_info => applyEdit lines kt.1 kt.2 comment_info

/-- CStyleCommentExtractor.replace_comments: split into lines, process the
translations in descending line order, re-running extract_comments on the
unchanged content argument at each iteration, and join. -/
def replace_comments (content : List Char) (translations : List (Nat × List Char)) :
    Except Nat (List Char) := do
  let lines ← (sortDescend translations).foldlM (replaceStep content) (splitNl content)
  pure (joinNl lines)

/-- The replacement loop with the one extraction hoisted out of the loop:
because replace_comments re-extracts from its unchanged content argument at
every iteration, a single extraction before the loop yields the same
function; stated and proved under claim C3. -/
def replaceCommentsHoisted (content : List Char) (translations : List (Nat × List Char)) :
    Except Nat (List Char) := do
  let comments := extract_comments content
  let lines ← (sortDescend translations).foldlM
    (fun lines kt =>
      match dget comments kt.1 with
      | none => Except.error kt.1
      | some comment_info => applyEdit lines kt.1 kt.2 comment_info) (splitNl content)
  pure (joinNl lines)

/-- Modelled from the spec, for comparison under claim C3 only: a replacement
loop that re-extracts comment metadata from the CURRENT content, as already
modified by the substitutions performed so far, before applying each
substitution.  The source function instead re-extracts from its unchanged
content argument every time; this definition exists solely to be compared
with replace_comments. -/
def replaceCommentsFresh (content : List Char) (translations : List (Nat × List Char)) :
    Except Nat (List Char) :=
  (sortDescend translations).foldlM
    (fun cur kt => (replaceStep cur (splitNl cur) kt).map joinNl) content

end CStyleCommentExtractor

namespace PythonCommentExtractor

/-- The while loop of PythonCommentExtractor._is_in_string, textually the
same loop as the C-style one. -/
def quoteLoop : List Char → Bool → Bool → Bool
  | [], in_single_quote, in_double_quote => in_single_quote || in_double_quote
  | ['\\'], in_single_quote, in_double_quote => in_single_quote || in_double_quote
  | '\\' :: _ :: rest, in_single_quote, in_double_quote =>
    quoteLoop rest in_single_quote in_double_quote
  | c :: rest, in_single_quote, in_double_quote =>
    if c = '"' ∧ in_single_quote = false then
      quoteLoop rest in_single_quote (! in_double_quote)
    else if c = '\'' ∧ in_double_quote = false then
      quoteLoop rest (! in_single_quote) in_double_quote
    else quoteLoop rest in_single_quote in_double_quote

/-- PythonCommentExtractor._is_in_string: scans the whole text it receives;
the position argument is unused in the source body. -/
def is_in_string (content : List Char) (_pos : Nat) : Bool :=
  quoteLoop content false false

/-- Whether the list begins with three consecutive q quote characters. -/
def tripleAt (q : Char) : List Char → Bool
  | a :: b :: c :: _ => a == q && b == q && c == q
  | _ => false

/-- First index at which three consecutive q quotes begin. -/
def findCloseTriple (q : Char) : List Char → Option Nat
  | [] => none
  | c :: rest =>
    if tripleAt q (c :: rest) then some 0
    else (findCloseTriple q rest).map (fun j => j + 1)

/-- The docstring-pattern scan: at each position the single-quote triple
alternative is tried first, then the double-quote one; an opening triple with
no closing triple ahead fails, and the scan moves on by one character; a
successful match extends to the first closing triple (the non-greedy
behaviour), and the cursor then jumps past the match, as the while loop of
extract_comments sets current_pos to end_pos.  The first argument is
some (q, s) while inside a match opened with quote q at absolute position s,
a state entered only after checking that a closing triple exists ahead.
Entries are (absolute start, absolute end, match end relative to the cursor
at search time), the last component being the end stored in the record; base
is that cursor. -/
def findDocScan : Option (Char × Nat) → List Char → Nat → Nat → List (Nat × Nat × Nat)
  | _, [], _, _ => []
  | some (q, s), a :: b :: c :: rest, cur, base =>
    if a = q ∧ b = q ∧ c = q then
      (s, cur + 3, cur + 3 - base) :: findDocScan none rest (cur + 3) (cur + 3)
    else findDocScan (some (q, s)) (b :: c :: rest) (cur + 1) base
  | some _, _ :: _, _, _ => []
  | none, a :: b :: c :: rest, cur, base =>
    if a = '\'' ∧ b = '\'' ∧ c = '\'' then
      (match findCloseTriple '\'' rest with
       | some _ => findDocScan (some ('\'', cur)) rest (cur + 3) base
       | none => findDocScan none (b :: c :: rest) (cur + 1) base)
    else if a = '"' ∧ b = '"' ∧ c = '"' then
      (match findCloseTriple '"' rest with
       | some _ => findDocScan (some ('"', cur)) rest (cur + 3) base
       | none => findDocScan none (b :: c :: rest) (cur + 1) base)
    else findDocScan none (b :: c :: rest) (cur + 1) base
  | none, _ :: _, _, _ => []

/-- All docstring-pattern matches of the text. -/
def findDocMatches (content : List Char) : List (Nat × Nat × Nat) :=
  findDocScan none content 0 0

/-- The last regex of the acceptance heuristic, applied to the matched text:
optional spaces and tabs, then a single or double quote. -/
def startsWsQuote (l : List Char) : Bool :=
  match l.dropWhile (fun c => c == ' ' || c == '\t') with
  | '"' :: _ => true
  | '\'' :: _ => true
  | _ => false

/-- The docstring acceptance heuristic for a match spanning absolute
positions s to e: the stripped text on the same line before the match ends
with a colon or an equals sign, or the match is on line 1, or the matched
text itself passes the quote-at-line-start regex (the source applies that
regex to the match text, which always begins with a quote, so this last test
always succeeds; see the C1 theorems). -/
def docstringAccept (content : List Char) (s e : Nat) : Bool :=
  let last_line := pyStrip ((splitNl (content.take s)).getLastD [])
  lastEndsWith last_line ':' || lastEndsWith last_line '=' ||
    (lineNumOf content s == 1) || startsWsQuote ((content.take e).drop s)

/-- The docstring matches that produce records: the start position is not
inside another string, and the acceptance heuristic holds.  A skipped match
contributes neither a record nor excluded positions, though the scan cursor
still advanced past it. -/
def acceptedDocstrings (content : List Char) : List (Nat × Nat × Nat) :=
  (findDocMatches content).filter (fun m =>
    ! is_in_string (content.take m.1) m.1 && docstringAccept content m.1 m.2.1)

/-- Membership in the docstring position-exclusion set used by the hash scan. -/
def inDocstringSpans (content : List Char) (p : Nat) : Bool :=
  (acceptedDocstrings content).any (fun m => m.1 ≤ p && p < m.2.1)

/-- One docstring record. -/
def docstringRecord (content : List Char) (m : Nat × Nat × Nat) : Nat × CommentInfo :=
  let original := pyStrip ((content.take m.2.1).drop m.1)
  let prev_last := (splitNl (content.take m.1)).getLastD []
  (lineNumOf content m.1,
   { content := pyStrip ((original.drop 3).take (original.length - 6))
     start := prev_last.length - (prev_last.dropWhile pyIsSpace).length
     stop := m.2.2
     original := original
     type := CommentType.docstring
     quote_type := original.take 3
     line_count := original.count '\n' + 1 })

/-- The inline record contributed by 1-based line i: the first hash on the
line, skipped when inside an accepted docstring span or a string literal,
and skipped for a shebang line 1 or a coding declaration within the first
two lines. -/
def inlineRecordOfLine (content : List Char) (lines : List (List Char))
    (i : Nat) (line : List Char) : Option (Nat × CommentInfo) :=
  match line.findIdx? (fun c => c == '#') with
  | none => none
  | some pos =>
    let pos_in_file := lineStartPos lines i + pos
    if inDocstringSpans content pos_in_file || is_in_string (line.take pos) pos then none
    else if i == 1 && ("#!".toList).isPrefixOf (pyStrip line) then none
    else if i ≤ 2 ∧ containsSub ("coding".toList) line = true then none
    else
      some (i,
        { content := pyStrip ((line.drop pos).drop 1)
          start := pos
          stop := line.length
          original := line.drop pos
          type := CommentType.inline
          has_code := ! (pyStrip (line.take pos)).isEmpty })

/-- The bindings produced by the docstring pass, in match order. -/
def docstringRecords (content : List Char) : Comments :=
  (acceptedDocstrings content).map (docstringRecord content)

/-- The bindings produced by the hash pass, in line order. -/
def inlineRecords (content : List Char) : Comments :=
  (List.enumFrom 1 (splitNl content)).filterMap
    (fun il => inlineRecordOfLine content (splitNl content) il.1 il.2)

/-- PythonCommentExtractor.extract_comments: the docstring pass fills the
dictionary first, then the line-by-line hash pass, whose bindings shadow
earlier ones for the same line. -/
def extract_comments (content : List Char) : Comments :=
  docstringRecords content ++ inlineRecords content

/-- The edit one iteration applies, as for the C-style extractor but with
the hash marker and the docstring block format. -/
def applyEdit (lines : List (List Char)) (line_num : Nat) (translation : List Char)
    (comment_info : CommentInfo) : Except Nat (List (List Char)) :=
  if comment_info.type = CommentType.inline then
    match lines.get? (line_num - 1) with
    | none => Except.error line_num
    | some original_line =>
      if comment_info.has_code then
        Except.ok (lines.set (line_num - 1)
          (original_line.take comment_info.start ++ "# ".toList ++ pyStrip translation))
      else
        Except.ok (lines.set (line_num - 1)
          (List.replicate comment_info.start ' ' ++ "# ".toList ++ pyStrip translation))
  else
    let indentation := List.replicate comment_info.start ' '
    let formatted := (indentation ++ comment_info.quote_type) ::
      ((splitNl translation).map (fun ln => indentation ++ pyStrip ln) ++
        [indentation ++ comment_info.quote_type])
    Except.ok (lines.take (line_num - 1) ++ formatted ++
      lines.drop (line_num - 1 + comment_info.line_count))

/-- One full iteration: look up the record in the extraction of the content
argument, then apply the edit. -/
def replaceStep (content : List Char) (lines : List (List Char))
    (kt : Nat × List Char) : Except Nat (List (List Char)) :=
  match dget (extract_comments content) kt.1 with
  | none => Except.error kt.1
  | some comment_info => applyEdit lines kt.1 kt.2 comment_info

/-- PythonCommentExtractor.replace_comments. -/
def replace_comments (content : List Char) (translations : List (Nat × List Char)) :
    Except Nat (List Char) := do
  let lines ← (sortDescend translations).foldlM (replaceStep content) (splitNl content)
  pure (joinNl lines)

/-- The replacement loop with the one extraction hoisted out of the loop, as
for the C-style extractor; stated and proved under claim C3. -/
def replaceCommentsHoisted (content : List Char) (translations : List (Nat × List Char)) :
    Except Nat (List Char) := do
  let comments := extract_comments content
  let lines ← (sortDescend translations).foldlM
    (fun lines kt =>
      match dget comments kt.1 with
      | none => Except.error kt.1
      | some comment_info => applyEdit lines kt.1 kt.2 comment_info) (splitNl content)
  pure (joinNl lines)

end PythonCommentExtractor

namespace FileDetector

/-- Index of the last occurrence of a character, the rfind of the source; the
source uses -1 for absence, modelled here as none. -/
def lastIdxOf (c : Char) (l : List Char) : Option Nat :=
  match l.reverse.findIdx? (fun x => x == c) with
  | none => none
  | some j => some (l.length - 1 - j)

/-- The extension part of os.path.splitext on a POSIX path: the extension
starts at the last dot, provided the dot lies after the last separator and
some non-dot character precedes it within the basename (a basename of only
leading dots has no extension). -/
def splitextExt (p : List Char) : List Char :=
  let sepIndex : Int := match lastIdxOf '/' p with | none => -1 | some i => (i : Int)
  let dotIndex : Int := match lastIdxOf '.' p with | none => -1 | some i => (i : Int)
  if sepIndex < dotIndex then
    let fi := (sepIndex + 1).toNat
    let di := dotIndex.toNat
    if (List.range (di - fi)).any (fun k => ! (p.getD (fi + k) '.' == '.')) then
      p.drop di
    else []
  else []

/-- The keys of the EXTRACTORS table. -/
def registeredExtensions : List (List Char) :=
  [".c".toList, ".cpp".toList, ".py".toList, ".js".toList]

/-- FileDetector.extract_comments, with the content of the file at the path
passed explicitly in place of the file read: an unregistered extension
yields the empty dict without any error. -/
def extract_comments (path content : List Char) : Comments :=
  let ext := splitextExt path
  if ext ∈ registeredExtensions then
    (if ext = ".py".toList then PythonCommentExtractor.extract_comments content
     else CStyleCommentExtractor.extract_comments content)
  else []

/-- FileDetector.replace_comments, with the file content passed explicitly:
False for an unregistered extension, before the try block; otherwise the
extractor replacement runs inside try/except, any raised error is caught and
turned into False, and success into True (the file write itself is outside
the model). -/
def replace_comments (path content : List Char)
    (translations : List (Nat × List Char)) : Bool :=
  let ext := splitextExt path
  if ext ∈ registeredExtensions then
    (match (if ext = ".py".toList then
              PythonCommentExtractor.replace_comments content translations
            else CStyleCommentExtractor.replace_comments content translations) with
     | Except.ok _ => true
     | Except.error _ => false)
  else false

end FileDetector

theorem mem_dropWhile_of_not {p : Char → Bool} {c : Char} {l : List Char}
    (hc : c ∈ l) (hp : p c = false) : c ∈ l.dropWhile p := by
  induction l with
  | nil => cases hc
  | cons a t ih =>
    by_cases ha : p a = true
    · rw [List.dropWhile_cons_of_pos ha]
      cases hc with
      | head => rw [hp] at ha; cases ha
      | tail b hmem => exact ih hmem
    · rw [List.dropWhile_cons_of_neg ha]
      exact hc

theorem mem_dropTrailingWhile_of_not {p : Char → Bool} {c : Char} {l : List Char}
    (hc : c ∈ l) (hp : p c = false) : c ∈ dropTrailingWhile p l := by
  unfold dropTrailingWhile
  rw [List.mem_reverse]
  exact mem_dropWhile_of_not (by rwa [List.mem_reverse]) hp

theorem dropTrailingWhile_subset (p : Char → Bool) (l : List Char) :
    dropTrailingWhile p l ⊆ l := by
  intro c hc
  unfold dropTrailingWhile at hc
  rw [List.mem_reverse] at hc
  have := (List.dropWhile_sublist (l := l.reverse) p).subset hc
  rwa [List.mem_reverse] at this

theorem pyStrip_subset (l : List Char) : pyStrip l ⊆ l := by
  intro c hc
  have := dropTrailingWhile_subset pyIsSpace (l.dropWhile pyIsSpace) hc
  exact (List.dropWhile_sublist pyIsSpace).subset this

theorem mem_pyStrip_of_not_space {c : Char} {l : List Char}
    (hc : c ∈ l) (hp : pyIsSpace c = false) : c ∈ pyStrip l :=
  mem_dropTrailingWhile_of_not (mem_dropWhile_of_not hc hp) hp

namespace LanguageDetector

theorem stripCommentMarkers_subset (l : List Char) : stripCommentMarkers l ⊆ l := by
  intro c hc
  have := dropTrailingWhile_subset _ _ hc
  exact (List.dropWhile_sublist _).subset this

/-- A Chinese character is touched by none of the stripping passes. -/
theorem isChineseChar_not_stripped {c : Char} (h : isChineseChar c = true) :
    pyIsSpace c = false ∧ c ≠ '/' ∧ c ≠ '*' ∧ c ≠ '#' := by
  simp only [isChineseChar, decide_eq_true_eq] at h
  refine ⟨by simp only [pyIsSpace, decide_eq_false_iff_not]; omega, ?_, ?_, ?_⟩
  all_goals rintro rfl; exact absurd h (by decide)

/-- A kana character is touched by none of the stripping passes. -/
theorem isKanaChar_not_stripped {c : Char} (h : isKanaChar c = true) :
    pyIsSpace c = false ∧ c ≠ '/' ∧ c ≠ '*' ∧ c ≠ '#' := by
  simp only [isKanaChar, decide_eq_true_eq] at h
  refine ⟨by simp only [pyIsSpace, decide_eq_false_iff_not]; omega, ?_, ?_, ?_⟩
  all_goals rintro rfl; exact absurd h (by decide)

theorem mem_stripCommentMarkers_of_chinese {c : Char} {l : List Char}
    (hc : c ∈ l) (h : isChineseChar c = true) :
    c ∈ pyStrip (stripCommentMarkers l) := by
  obtain ⟨hsp, h1, h2, h3⟩ := isChineseChar_not_stripped h
  have hcls1 : (c == '/' || c == '*' || pyIsSpace c || c == '#') = false := by
    simp [h1, h2, h3, hsp]
  have hcls2 : (c == '*' || c == '/' || pyIsSpace c) = false := by
    simp [h1, h2, hsp]
  exact mem_pyStrip_of_not_space
    (mem_dropTrailingWhile_of_not (mem_dropWhile_of_not hc hcls1) hcls2) hsp

theorem mem_stripCommentMarkers_of_kana {c : Char} {l : List Char}
    (hc : c ∈ l) (h : isKanaChar c = true) :
    c ∈ pyStrip (stripCommentMarkers l) := by
  obtain ⟨hsp, h1, h2, h3⟩ := isKanaChar_not_stripped h
  have hcls1 : (c == '/' || c == '*' || pyIsSpace c || c == '#') = false := by
    simp [h1, h2, h3, hsp]
  have hcls2 : (c == '*' || c == '/' || pyIsSpace c) = false := by
    simp [h1, h2, hsp]
  exact mem_pyStrip_of_not_space
    (mem_dropTrailingWhile_of_not (mem_dropWhile_of_not hc hcls1) hcls2) hsp

end LanguageDetector

theorem isEmpty_false_of_mem {c : Char} {l : List Char} (h : c ∈ l) : l.isEmpty = false := by
  cases l with
  | nil => cases h
  | cons a t => rfl

theorem splitNl_ne_nil (l : List Char) : splitNl l ≠ [] := by
  cases l with
  | nil => simp [splitNl]
  | cons c rest =>
    simp only [splitNl]
    split
    · simp
    · split <;> simp

theorem joinNl_splitNl (l : List Char) : joinNl (splitNl l) = l := by
  induction l with
  | nil => rfl
  | cons c rest ih =>
    simp only [splitNl]
    by_cases h : c = '\n'
    · rw [if_pos h]
      subst h
      cases hs : splitNl rest with
      | nil => exact absurd hs (splitNl_ne_nil rest)
      | cons a as =>
        rw [hs] at ih
        show [] ++ '\n' :: joinNl (a :: as) = '\n' :: rest
        rw [List.nil_append, ih]
    · rw [if_neg h]
      cases hs : splitNl rest with
      | nil => exact absurd hs (splitNl_ne_nil rest)
      | cons a as =>
        rw [hs] at ih
        cases as with
        | nil =>
          show c :: a = c :: rest
          rw [show joinNl [a] = a from rfl] at ih
          rw [ih]
        | cons b bs =>
          show (c :: a) ++ '\n' :: joinNl (b :: bs) = c :: rest
          rw [show joinNl (a :: b :: bs) = a ++ '\n' :: joinNl (b :: bs) from rfl] at ih
          rw [List.cons_append, ih]

theorem filter_key_eq_nil {m : Comments} {k : Nat}
    (h : ∀ v, (k, v) ∉ m) : m.filter (fun p => p.1 == k) = [] := by
  induction m with
  | nil => rfl
  | cons a rest ih =>
    rw [List.filter_cons]
    have ha : (a.1 == k) = false := by
      rcases a with ⟨ka, va⟩
      simp only [beq_eq_false_iff_ne, ne_eq]
      intro hk
      exact h va (by rw [hk] at *; exact List.mem_cons_self _ _)
    rw [ha]
    exact ih (fun v hv => h v (List.mem_cons_of_mem a hv))

theorem mem_of_getLast?_eq {α : Type} {l : List α} {a : α}
    (h : l.getLast? = some a) : a ∈ l := by
  cases l with
  | nil => cases h
  | cons x xs =>
    rw [List.getLast?_eq_getLast_of_ne_nil (by simp)] at h
    cases h
    exact List.getLast_mem _

theorem dget_append (A B : Comments) (k : Nat) :
    dget (A ++ B) k =
      match dget B k with
      | some v => some v
      | none => dget A k := by
  unfold dget
  rw [List.filter_append, List.getLast?_append]
  cases hB : (B.filter (fun p => p.1 == k)).getLast? with
  | none => simp [Option.or]
  | some b => simp [Option.or]

theorem dget_eq_of_no_key_right {A B : Comments} {k : Nat}
    (h : ∀ v, (k, v) ∉ B) : dget (A ++ B) k = dget A k := by
  rw [dget_append]
  unfold dget
  rw [filter_key_eq_nil h]
  rfl

theorem dget_mem {m : Comments} {k : Nat} {v : CommentInfo}
    (h : dget m k = some v) : (k, v) ∈ m := by
  unfold dget at h
  cases hf : (m.filter (fun p => p.1 == k)).getLast? with
  | none => rw [hf] at h; cases h
  | some p =>
    rw [hf] at h
    have hmem : p ∈ m.filter (fun p => p.1 == k) := mem_of_getLast?_eq hf
    have hft := List.mem_filter.1 hmem
    rcases p with ⟨kp, vp⟩
    simp only [beq_iff_eq] at hft
    simp only [Option.map_some'] at h
    cases h
    rw [hft.2] at hft
    exact hft.1

/-- C5 counterexample: the input consisting of the single character hash is
made entirely of ASCII punctuation, so by the claim the detector should
return the English result; but stripping leaves the empty string and
detect_language returns None instead. -/
theorem c5_counterexample_hash :
    (∀ c ∈ ("#".toList), LanguageDetector.allowedEnglishChar c = true) ∧
    LanguageDetector.detect_language ("#".toList) ≠ some "en" ∧
    LanguageDetector.detect_language ("#".toList) = none := by
  refine ⟨by decide, by decide, by decide⟩

/-- C5 (amended): detect_language applies the one-drop rule in strict order on
the marker- and whitespace-stripped text: any CJK Unified Ideograph anywhere in
the text yields zh (never en, even with Latin letters present); otherwise any
Hiragana or Katakana code point yields jp; otherwise, PROVIDED the stripped
text is nonempty, a text of ASCII letters, digits, punctuation and whitespace
(space, newline, tab, carriage return) yields en; otherwise (including every
text that stripping reduces to the empty string) the result is None. -/
theorem c5_detect_language_amended :
    (∀ text : List Char, (∃ c ∈ text, LanguageDetector.isChineseChar c = true) →
        LanguageDetector.detect_language text = some "zh") ∧
    (∀ text : List Char, (∀ c ∈ text, LanguageDetector.isChineseChar c = false) →
        (∃ c ∈ text, LanguageDetector.isKanaChar c = true) →
        LanguageDetector.detect_language text = some "jp") ∧
    (∀ text : List Char, (∀ c ∈ text, LanguageDetector.allowedEnglishChar c = true) →
        pyStrip (LanguageDetector.stripCommentMarkers text) ≠ [] →
        LanguageDetector.detect_language text = some "en") ∧
    (∀ text : List Char,
        (pyStrip (LanguageDetector.stripCommentMarkers text)).any
          LanguageDetector.isChineseChar = false →
        (pyStrip (LanguageDetector.stripCommentMarkers text)).any
          LanguageDetector.isKanaChar = false →
        LanguageDetector.is_english (pyStrip (LanguageDetector.stripCommentMarkers text)) = false →
        LanguageDetector.detect_language text = none) := by
  refine ⟨?_, ?_, ?_, ?_⟩
  · intro text ⟨c, hc, hcjk⟩
    have hmem := LanguageDetector.mem_stripCommentMarkers_of_chinese hc hcjk
    unfold LanguageDetector.detect_language
    have hne : (pyStrip (LanguageDetector.stripCommentMarkers text)).isEmpty = false :=
      isEmpty_false_of_mem hmem
    have hany : (pyStrip (LanguageDetector.stripCommentMarkers text)).any
        LanguageDetector.isChineseChar = true :=
      List.any_eq_true.2 ⟨c, hmem, hcjk⟩
    simp only [hne, hany, Bool.false_eq_true, if_false, if_true]
  · intro text hnoz ⟨c, hc, hkana⟩
    have hmem := LanguageDetector.mem_stripCommentMarkers_of_kana hc hkana
    unfold LanguageDetector.detect_language
    have hne : (pyStrip (LanguageDetector.stripCommentMarkers text)).isEmpty = false :=
      isEmpty_false_of_mem hmem
    have hnozs : (pyStrip (LanguageDetector.stripCommentMarkers text)).any
        LanguageDetector.isChineseChar = false := by
      rw [List.any_eq_false]
      intro x hx
      have hxmem : x ∈ text :=
        LanguageDetector.stripCommentMarkers_subset text (pyStrip_subset _ hx)
      simp [hnoz x hxmem]
    have hany : (pyStrip (LanguageDetector.stripCommentMarkers text)).any
        LanguageDetector.isKanaChar = true :=
      List.any_eq_true.2 ⟨c, hmem, hkana⟩
    simp only [hne, hnozs, hany, Bool.false_eq_true, if_false, if_true]
  · intro text hall hne
    unfold LanguageDetector.detect_language
    have hsub : ∀ x ∈ pyStrip (LanguageDetector.stripCommentMarkers text), x ∈ text :=
      fun x hx => LanguageDetector.stripCommentMarkers_subset text (pyStrip_subset _ hx)
    have hnozs : (pyStrip (LanguageDetector.stripCommentMarkers text)).any
        LanguageDetector.isChineseChar = false := by
      rw [List.any_eq_false]
      intro x hx
      have := hall x (hsub x hx)
      simp only [LanguageDetector.allowedEnglishChar, decide_eq_true_eq] at this
      simp only [LanguageDetector.isChineseChar, decide_eq_true_eq]
      omega
    have hnoks : (pyStrip (LanguageDetector.stripCommentMarkers text)).any
        LanguageDetector.isKanaChar = false := by
      rw [List.any_eq_false]
      intro x hx
      have := hall x (hsub x hx)
      simp only [LanguageDetector.allowedEnglishChar, decide_eq_true_eq] at this
      simp only [LanguageDetector.isKanaChar, decide_eq_true_eq]
      omega
    have heng : LanguageDetector.is_english
        (pyStrip (LanguageDetector.stripCommentMarkers text)) = true := by
      unfold LanguageDetector.is_english
      rw [List.all_eq_true]
      intro x hx
      exact hall x (hsub x (pyStrip_subset _ hx))
    have hneb : (pyStrip (LanguageDetector.stripCommentMarkers text)).isEmpty = false := by
      rcases h : pyStrip (LanguageDetector.stripCommentMarkers text) with _ | _
      · exact absurd h hne
      · rfl
    simp only [hneb, hnozs, hnoks, heng, Bool.false_eq_true, if_false, if_true]
  · intro text h1 h2 h3
    unfold LanguageDetector.detect_language
    by_cases hemp : (pyStrip (LanguageDetector.stripCommentMarkers text)).isEmpty = true
    · simp only [hemp, if_true]
    · have hfalse : (pyStrip (LanguageDetector.stripCommentMarkers text)).isEmpty = false :=
        Bool.eq_false_iff.2 hemp
      simp only [hfalse, h1, h2, h3, Bool.false_eq_true, if_false]

/-- C5 witness: the amended theorem applied at concrete inputs, one for each
branch of the one-drop rule. -/
theorem c5_detect_language_amended_witness :
    LanguageDetector.detect_language ("a中".toList) = some "zh" ∧
    LanguageDetector.detect_language ("の".toList) = some "jp" ∧
    LanguageDetector.detect_language ("// hi".toList) = some "en" ∧
    LanguageDetector.detect_language ("é".toList) = none :=
  ⟨c5_detect_language_amended.1 _ (by decide),
   c5_detect_language_amended.2.1 _ (by decide) (by decide),
   c5_detect_language_amended.2.2.1 _ (by decide) (by decide),
   c5_detect_language_amended.2.2.2 _ (by decide) (by decide) (by decide)⟩

/-- C7: for the single line x = "// not a comment" the C-style extractor
records zero comments: the slash-slash marker at position 5 lies inside a
double-quoted string literal according to the quote-tracking scan of the
line prefix, and no other comment exists on the line. -/
theorem c7_marker_inside_string_not_recorded :
    CStyleCommentExtractor.extract_comments ("x = \"// not a comment\"".toList) = [] := by
  decide

/-- C6: with an empty translations mapping, replace_comments of both
extractor variants returns the content unchanged (and raises nothing): the
loop body never runs and joining the split lines is the identity. -/
theorem c6_replace_empty_translations (content : List Char) :
    CStyleCommentExtractor.replace_comments content [] = Except.ok content ∧
    PythonCommentExtractor.replace_comments content [] = Except.ok content := by
  constructor
  · have h : CStyleCommentExtractor.replace_comments content [] =
        Except.ok (joinNl (splitNl content)) := rfl
    rw [joinNl_splitNl] at h
    exact h
  · have h : PythonCommentExtractor.replace_comments content [] =
        Except.ok (joinNl (splitNl content)) := rfl
    rw [joinNl_splitNl] at h
    exact h

/-- C9: the quote-tracking scanning loop is one shared primitive: the two
textually identical loops agree on every input, and the C-style entry point
on (s, pos) coincides with the Python entry point applied to the prefix of s
before pos, which is what the C-style one computes after truncation. -/
theorem c9_shared_quote_primitive :
    (∀ (l : List Char) (in_single_quote in_double_quote : Bool),
        CStyleCommentExtractor.quoteLoop l in_single_quote in_double_quote =
          PythonCommentExtractor.quoteLoop l in_single_quote in_double_quote) ∧
    (∀ (s : List Char) (pos : Nat),
        CStyleCommentExtractor.is_in_string s pos =
          PythonCommentExtractor.is_in_string (s.take pos) pos) := by
  have hloop : ∀ (l : List Char) (sq dq : Bool),
      CStyleCommentExtractor.quoteLoop l sq dq = PythonCommentExtractor.quoteLoop l sq dq := by
    intro l sq dq
    induction l, sq, dq using CStyleCommentExtractor.quoteLoop.induct <;>
      simp only [CStyleCommentExtractor.quoteLoop, PythonCommentExtractor.quoteLoop] <;>
      try assumption
    all_goals split <;> try split
    all_goals simp_all
  exact ⟨hloop, fun s pos => hloop (s.take pos) false false⟩

/-- C4 counterexample: in the single line consisting of a complete block
comment followed by code-free slash-slash text, a multiline comment starts on
line 1 (its span is accepted) and a slash-slash marker also starts on line 1
outside that span; the claim says the multiline comment wins the record, but
the record for line 1 is the inline one, because the inline pass runs second
and overwrites the dictionary entry. -/
theorem c4_counterexample_inline_overwrites :
    CStyleCommentExtractor.acceptedBlocks ("/* a */ // b".toList) = [(0, 7)] ∧
    (dget (CStyleCommentExtractor.extract_comments ("/* a */ // b".toList)) 1).map
        (fun i => i.type) = some CommentType.inline := by
  exact ⟨by decide, by decide⟩

theorem cStyle_inlineRecords_mem {content : List Char} {i : Nat} {rec : CommentInfo}
    (h : (i, rec) ∈ CStyleCommentExtractor.inlineRecords content) :
    rec.type = CommentType.inline ∧
    inSpans (CStyleCommentExtractor.acceptedBlocks content)
      (lineStartPos (splitNl content) i + rec.start) = false := by
  unfold CStyleCommentExtractor.inlineRecords at h
  rw [List.mem_flatMap] at h
  obtain ⟨il, hil, hmem⟩ := h
  unfold CStyleCommentExtractor.inlineRecordsOfLine at hmem
  split at hmem
  · cases hmem
  · rw [List.mem_filterMap] at hmem
    obtain ⟨pos, hpos, hsome⟩ := hmem
    simp only at hsome
    split at hsome
    · cases hsome
    · rename_i hguard
      rw [Bool.or_eq_true, not_or] at hguard
      injection hsome with hpair
      have h1 : il.1 = i := congrArg Prod.fst hpair
      have h2 := congrArg Prod.snd hpair
      simp only at h1 h2
      subst h1
      rw [← h2]
      refine ⟨rfl, ?_⟩
      simpa using hguard.1

/-- C4 (amended): the multiline comment wins the record for a line exactly
when the inline pass contributes nothing for that line.  Part one: every
record the inline pass produces has inline type and its marker position lies
outside every accepted multiline span — equivalently, a slash-slash marker
whose file position falls inside a recorded multiline span is suppressed via
the position-exclusion set and produces no inline record.  Part two: when the
inline pass produces no binding for a line, the lookup is the multiline
pass lookup, so the multiline comment wins.  Part three: when the inline pass
does produce a binding for the line — a marker on the same line but outside
the multiline span — that binding wins instead, because the inline pass runs
second and shadows the multiline record. -/
theorem c4_multiline_wins_amended :
    (∀ (content : List Char) (i : Nat) (rec : CommentInfo),
        (i, rec) ∈ CStyleCommentExtractor.inlineRecords content →
        rec.type = CommentType.inline ∧
        inSpans (CStyleCommentExtractor.acceptedBlocks content)
          (lineStartPos (splitNl content) i + rec.start) = false) ∧
    (∀ (content : List Char) (i : Nat),
        (∀ v, (i, v) ∉ CStyleCommentExtractor.inlineRecords content) →
        dget (CStyleCommentExtractor.extract_comments content) i =
          dget (CStyleCommentExtractor.multilineRecords content) i) ∧
    (∀ (content : List Char) (i : Nat) (v : CommentInfo),
        dget (CStyleCommentExtractor.inlineRecords content) i = some v →
        dget (CStyleCommentExtractor.extract_comments content) i = some v) := by
  refine ⟨fun content i rec h => cStyle_inlineRecords_mem h, ?_, ?_⟩
  · intro content i hno
    unfold CStyleCommentExtractor.extract_comments
    exact dget_eq_of_no_key_right hno
  · intro content i v hv
    unfold CStyleCommentExtractor.extract_comments
    rw [dget_append, hv]

/-- C4 witness: the amended theorem applied at concrete inputs.  With the
marker inside the span, the inline pass is empty and the multiline record
wins; with the marker outside the span, the inline binding exists, satisfies
part one, and wins the lookup. -/
theorem c4_multiline_wins_amended_witness :
    (dget (CStyleCommentExtractor.extract_comments ("x = 1; /* a // b */".toList)) 1 =
      dget (CStyleCommentExtractor.multilineRecords ("x = 1; /* a // b */".toList)) 1) ∧
    (({ content := "b".toList, start := 8, stop := 12, original := "// b".toList,
        type := CommentType.inline, has_code := true } : CommentInfo).type =
          CommentType.inline ∧
      inSpans (CStyleCommentExtractor.acceptedBlocks ("/* a */ // b".toList))
        (lineStartPos (splitNl ("/* a */ // b".toList)) 1 + 8) = false) ∧
    dget (CStyleCommentExtractor.extract_comments ("/* a */ // b".toList)) 1 =
      some { content := "b".toList, start := 8, stop := 12, original := "// b".toList,
             type := CommentType.inline, has_code := true } :=
  ⟨c4_multiline_wins_amended.2.1 _ 1
      (by
        intro v hv
        rw [show CStyleCommentExtractor.inlineRecords ("x = 1; /* a // b */".toList) = []
          from by decide] at hv
        cases hv),
   c4_multiline_wins_amended.1 ("/* a */ // b".toList) 1
      { content := "b".toList, start := 8, stop := 12, original := "// b".toList,
        type := CommentType.inline, has_code := true } (by decide),
   c4_multiline_wins_amended.2.2 _ 1 _ (by decide)⟩

/-- C1 counterexample: in the two-line content a, then x = 1 + a triple-quoted
string, the docstring match starting at position 10 satisfies none of the
claim's acceptance conditions — the stripped text before it on its own line
(x = 1 +) ends with neither colon nor equals, the stripped previous line (a)
does neither, the match is on line 2 not line 1, and it is not at the start
of its own line since non-whitespace precedes it — yet the extractor records
a docstring at line 2 and adds its span to the exclusion set, because the
source applies the line-start regex to the matched text itself, which always
begins with a quote. -/
theorem c1_counterexample_midline_match_recorded :
    lastEndsWith (pyStrip ("x = 1 + ".toList)) ':' = false ∧
    lastEndsWith (pyStrip ("x = 1 + ".toList)) '=' = false ∧
    lastEndsWith (pyStrip ("a".toList)) ':' = false ∧
    lastEndsWith (pyStrip ("a".toList)) '=' = false ∧
    lineNumOf ("a\nx = 1 + \"\"\"s\"\"\"".toList) 10 = 2 ∧
    ("x = 1 + ".toList).all pyIsSpace = false ∧
    PythonCommentExtractor.findDocMatches ("a\nx = 1 + \"\"\"s\"\"\"".toList) = [(10, 17, 17)] ∧
    (dget (PythonCommentExtractor.extract_comments ("a\nx = 1 + \"\"\"s\"\"\"".toList)) 2).map
        (fun i => i.type) = some CommentType.docstring ∧
    PythonCommentExtractor.inDocstringSpans ("a\nx = 1 + \"\"\"s\"\"\"".toList) 12 = true := by
  refine ⟨by decide, by decide, by decide, by decide, by decide, by decide, by decide,
    by decide, by decide⟩

/-- Every entry of the docstring scan starts at a quote character: the match
text of the docstring pattern necessarily begins with a single or double
quote. -/
theorem findDocScan_start_quote (content : List Char) :
    ∀ (st : Option (Char × Nat)) (l : List Char) (cur base : Nat),
      content.drop cur = l →
      (∀ q0 s0, st = some (q0, s0) →
        (q0 = '\'' ∨ q0 = '"') ∧ content[s0]? = some q0 ∧ s0 ≤ cur) →
      ∀ s e r, (s, e, r) ∈ PythonCommentExtractor.findDocScan st l cur base →
        ∃ q, (q = '\'' ∨ q = '"') ∧ content[s]? = some q ∧ s < e := by
  intro st l cur base
  induction st, l, cur, base using PythonCommentExtractor.findDocScan.induct with
  | case1 st cur base =>
    intro _ _ s e r hmem
    simp only [PythonCommentExtractor.findDocScan] at hmem
    cases hmem
  | case2 q s0 a b c rest cur base htrip ih =>
    intro hdrop hst s e r hmem
    rw [PythonCommentExtractor.findDocScan, if_pos htrip] at hmem
    cases hmem with
    | head =>
      obtain ⟨hq, hget, hle⟩ := hst q s0 rfl
      exact ⟨q, hq, hget, by omega⟩
    | tail _ hmem =>
      refine ih ?_ (by intro q0 s1 h; cases h) s e r hmem
      have h3 : (content.drop cur).drop 3 = rest := by rw [hdrop]; rfl
      rwa [List.drop_drop] at h3
  | case3 q s0 a b c rest cur base htrip ih =>
    intro hdrop hst s e r hmem
    rw [PythonCommentExtractor.findDocScan, if_neg htrip] at hmem
    refine ih ?_ ?_ s e r hmem
    · have h1 : (content.drop cur).drop 1 = b :: c :: rest := by rw [hdrop]; rfl
      rwa [List.drop_drop] at h1
    · intro q0 s1 h
      injection h with h
      injection h with h1 h2
      subst h1
      subst h2
      obtain ⟨hq, hget, hle⟩ := hst q s0 rfl
      exact ⟨hq, hget, by omega⟩
  | case4 val head tail x y hshape =>
    intro _ _ s e r hmem
    obtain ⟨vq, vs⟩ := val
    cases tail with
    | nil => cases hmem
    | cons c2 t2 =>
      cases t2 with
      | nil => cases hmem
      | cons c3 t3 => exact ((hshape vq vs c2 c3 t3 rfl rfl)).elim
  | case5 a b c rest cur base htrip val hclose ih =>
    intro hdrop hst s e r hmem
    rw [PythonCommentExtractor.findDocScan, if_pos htrip, hclose] at hmem
    refine ih ?_ ?_ s e r hmem
    · have h3 : (content.drop cur).drop 3 = rest := by rw [hdrop]; rfl
      rwa [List.drop_drop] at h3
    · intro q0 s1 h
      injection h with h
      injection h with h1 h2
      subst h1
      subst h2
      refine ⟨Or.inl rfl, ?_, by omega⟩
      have hh := List.head?_drop content cur
      rw [hdrop] at hh
      simp only [List.head?_cons] at hh
      rw [← hh, htrip.1]
  | case6 a b c rest cur base htrip hclose ih =>
    intro hdrop hst s e r hmem
    rw [PythonCommentExtractor.findDocScan, if_pos htrip, hclose] at hmem
    refine ih ?_ (by intro q0 s1 h; cases h) s e r hmem
    have h1 : (content.drop cur).drop 1 = b :: c :: rest := by rw [hdrop]; rfl
    rwa [List.drop_drop] at h1
  | case7 a b c rest cur base htrip1 htrip2 val hclose ih =>
    intro hdrop hst s e r hmem
    rw [PythonCommentExtractor.findDocScan, if_neg htrip1, if_pos htrip2, hclose] at hmem
    refine ih ?_ ?_ s e r hmem
    · have h3 : (content.drop cur).drop 3 = rest := by rw [hdrop]; rfl
      rwa [List.drop_drop] at h3
    · intro q0 s1 h
      injection h with h
      injection h with h1 h2
      subst h1
      subst h2
      refine ⟨Or.inr rfl, ?_, by omega⟩
      have hh := List.head?_drop content cur
      rw [hdrop] at hh
      simp only [List.head?_cons] at hh
      rw [← hh, htrip2.1]
  | case8 a b c rest cur base htrip1 htrip2 hclose ih =>
    intro hdrop hst s e r hmem
    rw [PythonCommentExtractor.findDocScan, if_neg htrip1, if_pos htrip2, hclose] at hmem
    refine ih ?_ (by intro q0 s1 h; cases h) s e r hmem
    have h1 : (content.drop cur).drop 1 = b :: c :: rest := by rw [hdrop]; rfl
    rwa [List.drop_drop] at h1
  | case9 a b c rest cur base htrip1 htrip2 ih =>
    intro hdrop hst s e r hmem
    rw [PythonCommentExtractor.findDocScan, if_neg htrip1, if_neg htrip2] at hmem
    refine ih ?_ (by intro q0 s1 h; cases h) s e r hmem
    have h1 : (content.drop cur).drop 1 = b :: c :: rest := by rw [hdrop]; rfl
    rwa [List.drop_drop] at h1
  | case10 head tail x y hshape =>
    intro _ _ s e r hmem
    cases tail with
    | nil => cases hmem
    | cons c2 t2 =>
      cases t2 with
      | nil => cases hmem
      | cons c3 t3 => exact (hshape c2 c3 t3 rfl).elim

/-- C1 (amended): the docstring acceptance heuristic accepts every match the
pattern scan produces, because its last condition is evaluated on the matched
text itself, which always begins with a quote after zero spaces or tabs;
consequently the accepted docstrings are exactly the matches that do not
start inside another string literal — no match is ever ignored by the
heuristic, and the three line-based conditions of the claim never decide
anything. -/
theorem c1_docstring_heuristic_amended :
    (∀ (content : List Char) (m : Nat × Nat × Nat),
        m ∈ PythonCommentExtractor.findDocMatches content →
        PythonCommentExtractor.docstringAccept content m.1 m.2.1 = true) ∧
    (∀ content : List Char,
        PythonCommentExtractor.acceptedDocstrings content =
          (PythonCommentExtractor.findDocMatches content).filter
            (fun m => ! PythonCommentExtractor.is_in_string (content.take m.1) m.1)) := by
  have hpart1 : ∀ (content : List Char) (m : Nat × Nat × Nat),
      m ∈ PythonCommentExtractor.findDocMatches content →
      PythonCommentExtractor.docstringAccept content m.1 m.2.1 = true := by
    intro content m hmem
    rcases m with ⟨s, e, r⟩
    obtain ⟨q, hq, hget, hlt⟩ := findDocScan_start_quote content none content 0 0 rfl
      (by intro q0 s0 h; cases h) s e r hmem
    have hhead : ((content.take e).drop s).head? = some q := by
      rw [List.head?_drop, List.getElem?_take]
      rw [if_pos hlt]
      exact hget
    unfold PythonCommentExtractor.docstringAccept
    have hws : PythonCommentExtractor.startsWsQuote ((content.take e).drop s) = true := by
      unfold PythonCommentExtractor.startsWsQuote
      cases hg : (content.take e).drop s with
      | nil => rw [hg] at hhead; cases hhead
      | cons g0 gs =>
        rw [hg] at hhead
        simp only [List.head?_cons, Option.some.injEq] at hhead
        subst hhead
        rcases hq with rfl | rfl
        · rw [List.dropWhile_cons_of_neg (by decide)]
          rfl
        · rw [List.dropWhile_cons_of_neg (by decide)]
          rfl
    simp only [hws, Bool.or_true]
  refine ⟨hpart1, ?_⟩
  intro content
  unfold PythonCommentExtractor.acceptedDocstrings
  refine List.filter_congr ?_
  intro m hm
  rw [hpart1 content m hm, Bool.and_true]

/-- C1 witness: the amended theorem applied at a concrete input, the
canonical docstring after a function definition header. -/
theorem c1_docstring_heuristic_amended_witness :
    PythonCommentExtractor.docstringAccept
      ("def f():\n    \"\"\"doc\"\"\"".toList) 13 22 = true :=
  c1_docstring_heuristic_amended.1 ("def f():\n    \"\"\"doc\"\"\"".toList)
    (13, 22, 22) (by decide)

theorem mem_insertDescend {p x : Nat × List Char} {l : List (Nat × List Char)} :
    x ∈ insertDescend p l ↔ x = p ∨ x ∈ l := by
  induction l with
  | nil => simp [insertDescend]
  | cons q rest ih =>
    unfold insertDescend
    by_cases h : q.1 ≤ p.1
    · rw [if_pos h]
      simp [List.mem_cons]
    · rw [if_neg h]
      simp only [List.mem_cons, ih]
      tauto

theorem mem_sortDescend {x : Nat × List Char} {l : List (Nat × List Char)} :
    x ∈ sortDescend l ↔ x ∈ l := by
  induction l with
  | nil => simp [sortDescend]
  | cons p rest ih =>
    unfold sortDescend
    rw [mem_insertDescend, ih, List.mem_cons]

theorem insertDescend_pairwise {p : Nat × List Char} {l : List (Nat × List Char)}
    (h : List.Pairwise (fun a b : Nat × List Char => b.1 ≤ a.1) l) :
    List.Pairwise (fun a b : Nat × List Char => b.1 ≤ a.1) (insertDescend p l) := by
  induction l with
  | nil => simp [insertDescend]
  | cons q rest ih =>
    rw [List.pairwise_cons] at h
    unfold insertDescend
    by_cases hq : q.1 ≤ p.1
    · rw [if_pos hq]
      rw [List.pairwise_cons]
      constructor
      · intro x hx
        rcases List.mem_cons.1 hx with rfl | hx'
        · exact hq
        · exact le_trans (h.1 x hx') hq
      · rw [List.pairwise_cons]
        exact h
    · rw [if_neg hq]
      rw [List.pairwise_cons]
      constructor
      · intro x hx
        rcases mem_insertDescend.1 hx with rfl | hx'
        · omega
        · exact h.1 x hx'
      · exact ih h.2

theorem sortDescend_pairwise (l : List (Nat × List Char)) :
    List.Pairwise (fun a b : Nat × List Char => b.1 ≤ a.1) (sortDescend l) := by
  induction l with
  | nil => simp [sortDescend]
  | cons p rest ih =>
    unfold sortDescend
    exact insertDescend_pairwise ih

/-- C3 counterexample: on a two-line input holding an unclosed slash-star on
line 1, translating both lines diverges between the source behaviour
(metadata always re-extracted from the unchanged content argument: both
records stay inline, the code prefixes survive) and the mechanism asserted
by the claim (re-extract from the content as already modified: the first
substitution closes the slash-star, so line 1 re-extracts as a multiline
comment and the second substitution overwrites both lines with a block
comment).  The final conjuncts exhibit the diverging record metadata: inline
in the original, multiline in the modified content. -/
theorem c3_counterexample_stale_metadata :
    CStyleCommentExtractor.replace_comments ("x /* q // open\ny // c".toList)
        [(1, "a".toList), (2, "b */".toList)] =
      Except.ok ("x /* q // a\ny // b */".toList) ∧
    CStyleCommentExtractor.replaceCommentsFresh ("x /* q // open\ny // c".toList)
        [(1, "a".toList), (2, "b */".toList)] =
      Except.ok ("  /*\n   * a\n   */".toList) ∧
    CStyleCommentExtractor.replace_comments ("x /* q // open\ny // c".toList)
        [(1, "a".toList), (2, "b */".toList)] ≠
      CStyleCommentExtractor.replaceCommentsFresh ("x /* q // open\ny // c".toList)
        [(1, "a".toList), (2, "b */".toList)] ∧
    (dget (CStyleCommentExtractor.extract_comments ("x /* q // open\ny // c".toList)) 1).map
        (fun i => i.type) = some CommentType.inline ∧
    (dget (CStyleCommentExtractor.extract_comments ("x /* q // open\ny // b */".toList)) 1).map
        (fun i => i.type) = some CommentType.multiline := by
  refine ⟨by rfl, by rfl, ?_, by decide, by decide⟩
  intro h
  rw [show CStyleCommentExtractor.replace_comments ("x /* q // open\ny // c".toList)
        [(1, "a".toList), (2, "b */".toList)] =
      Except.ok ("x /* q // a\ny // b */".toList) from rfl] at h
  rw [show CStyleCommentExtractor.replaceCommentsFresh ("x /* q // open\ny // c".toList)
        [(1, "a".toList), (2, "b */".toList)] =
      Except.ok ("  /*\n   * a\n   */".toList) from rfl] at h
  cases h

/-- C3 (amended): replace_comments does process target lines in descending
line-number order (the sorted iteration order is pairwise descending and is a
permutation of the dictionary items), but before each substitution it
re-extracts comment metadata from the UNCHANGED content argument — the edits
accumulate in a separate line list and the content is never updated — so the
metadata reflects the original content, not the prior edits, and the loop
equals one with a single extraction hoisted out of it, for both extractor
variants. -/
theorem c3_descending_order_stale_extraction_amended :
    (∀ ts : List (Nat × List Char),
        List.Pairwise (fun a b : Nat × List Char => b.1 ≤ a.1) (sortDescend ts)) ∧
    (∀ (ts : List (Nat × List Char)) (p : Nat × List Char),
        p ∈ sortDescend ts ↔ p ∈ ts) ∧
    (∀ (content : List Char) (ts : List (Nat × List Char)),
        CStyleCommentExtractor.replace_comments content ts =
          CStyleCommentExtractor.replaceCommentsHoisted content ts) ∧
    (∀ (content : List Char) (ts : List (Nat × List Char)),
        PythonCommentExtractor.replace_comments content ts =
          PythonCommentExtractor.replaceCommentsHoisted content ts) :=
  ⟨sortDescend_pairwise, fun _ _ => mem_sortDescend, fun _ _ => rfl, fun _ _ => rfl⟩

/-- C8: for every path whose extension has no registered extractor, the
FileDetector wrappers are no-ops: extraction returns the empty dict and
replacement returns False, in both cases before anything that could raise
runs (the functions are total here by construction, so no exception
escapes). -/
theorem c8_unregistered_extension_noop :
    ∀ (path content : List Char) (translations : List (Nat × List Char)),
      FileDetector.splitextExt path ∉ FileDetector.registeredExtensions →
      FileDetector.extract_comments path content = [] ∧
      FileDetector.replace_comments path content translations = false := by
  intro path content translations h
  unfold FileDetector.extract_comments FileDetector.replace_comments
  rw [if_neg h, if_neg h]
  exact ⟨rfl, rfl⟩

/-- C8 witness: the theorem applied to a text-file path. -/
theorem c8_unregistered_extension_noop_witness :
    FileDetector.extract_comments ("notes.txt".toList) ("// a".toList) = [] ∧
    FileDetector.replace_comments ("notes.txt".toList) ("// a".toList)
      [(1, "x".toList)] = false :=
  c8_unregistered_extension_noop ("notes.txt".toList) ("// a".toList)
    [(1, "x".toList)] (by decide)

theorem splitNl_length (l : List Char) : (splitNl l).length = List.count '\n' l + 1 := by
  induction l with
  | nil => rfl
  | cons c rest ih =>
    simp only [splitNl]
    by_cases h : c = '\n'
    · rw [if_pos h, List.length_cons, ih, List.count_cons]
      subst h
      simp
    · rw [if_neg h]
      cases hs : splitNl rest with
      | nil => exact absurd hs (splitNl_ne_nil rest)
      | cons a as =>
        rw [hs] at ih
        simp only [List.length_cons] at ih ⊢
        rw [List.count_cons]
        have hbe : (c == '\n') = false := by simpa using h
        rw [hbe]
        simpa using ih

theorem lineNumOf_bounds (content : List Char) (p : Nat) :
    1 ≤ lineNumOf content p ∧ lineNumOf content p ≤ (splitNl content).length := by
  unfold lineNumOf
  rw [splitNl_length]
  have hc : List.count '\n' (content.take p) ≤ List.count '\n' content :=
    List.Sublist.count_le (List.take_sublist p content) '\n'
  omega

theorem cStyle_multiline_key_range {content : List Char} {i : Nat} {rec : CommentInfo}
    (h : (i, rec) ∈ CStyleCommentExtractor.multilineRecords content) :
    1 ≤ i ∧ i ≤ (splitNl content).length ∧ rec.type = CommentType.multiline := by
  unfold CStyleCommentExtractor.multilineRecords at h
  rw [List.mem_map] at h
  obtain ⟨se, _, heq⟩ := h
  have h1 : lineNumOf content se.1 = i := congrArg Prod.fst heq
  have h2 := congrArg (fun p => (Prod.snd p).type) heq
  simp only [CStyleCommentExtractor.multilineRecord] at h1 h2
  obtain ⟨hlo, hhi⟩ := lineNumOf_bounds content se.1
  rw [h1] at hlo hhi
  exact ⟨hlo, hhi, h2.symm⟩

theorem cStyle_inline_key_range {content : List Char} {i : Nat} {rec : CommentInfo}
    (h : (i, rec) ∈ CStyleCommentExtractor.inlineRecords content) :
    1 ≤ i ∧ i ≤ (splitNl content).length ∧ rec.type = CommentType.inline := by
  unfold CStyleCommentExtractor.inlineRecords at h
  rw [List.mem_flatMap] at h
  obtain ⟨il, hil, hmem⟩ := h
  rcases il with ⟨i0, line⟩
  obtain ⟨hlo, hhi, _⟩ := List.mem_enumFrom hil
  have hlen : (List.enumFrom 1 (splitNl content)).length = (splitNl content).length :=
    List.enumFrom_length
  unfold CStyleCommentExtractor.inlineRecordsOfLine at hmem
  split at hmem
  · cases hmem
  · rw [List.mem_filterMap] at hmem
    obtain ⟨pos, hpos, hsome⟩ := hmem
    simp only at hsome
    split at hsome
    · cases hsome
    · injection hsome with hpair
      have h1 : i0 = i := congrArg Prod.fst hpair
      have h2 := congrArg (fun p => (Prod.snd p).type) hpair
      simp only at h1 h2
      subst h1
      exact ⟨hlo, by omega, h2.symm⟩

theorem cStyle_extract_key_range {content : List Char} {i : Nat} {rec : CommentInfo}
    (h : (i, rec) ∈ CStyleCommentExtractor.extract_comments content) :
    1 ≤ i ∧ i ≤ (splitNl content).length := by
  unfold CStyleCommentExtractor.extract_comments at h
  rw [List.mem_append] at h
  rcases h with h | h
  · exact ⟨(cStyle_multiline_key_range h).1, (cStyle_multiline_key_range h).2.1⟩
  · exact ⟨(cStyle_inline_key_range h).1, (cStyle_inline_key_range h).2.1⟩

theorem py_docstring_key_range {content : List Char} {i : Nat} {rec : CommentInfo}
    (h : (i, rec) ∈ PythonCommentExtractor.docstringRecords content) :
    1 ≤ i ∧ i ≤ (splitNl content).length ∧ rec.type = CommentType.docstring := by
  unfold PythonCommentExtractor.docstringRecords at h
  rw [List.mem_map] at h
  obtain ⟨m, _, heq⟩ := h
  have h1 : lineNumOf content m.1 = i := congrArg Prod.fst heq
  have h2 := congrArg (fun p => (Prod.snd p).type) heq
  simp only [PythonCommentExtractor.docstringRecord] at h1 h2
  obtain ⟨hlo, hhi⟩ := lineNumOf_bounds content m.1
  rw [h1] at hlo hhi
  exact ⟨hlo, hhi, h2.symm⟩

theorem py_inline_key_range {content : List Char} {i : Nat} {rec : CommentInfo}
    (h : (i, rec) ∈ PythonCommentExtractor.inlineRecords content) :
    1 ≤ i ∧ i ≤ (splitNl content).length ∧ rec.type = CommentType.inline := by
  unfold PythonCommentExtractor.inlineRecords at h
  rw [List.mem_filterMap] at h
  obtain ⟨il, hil, hsome⟩ := h
  rcases il with ⟨i0, line⟩
  obtain ⟨hlo, hhi, _⟩ := List.mem_enumFrom hil
  unfold PythonCommentExtractor.inlineRecordOfLine at hsome
  split at hsome
  · cases hsome
  · simp only at hsome
    split at hsome
    · cases hsome
    · split at hsome
      · cases hsome
      · split at hsome
        · cases hsome
        · injection hsome with hpair
          have h1 : i0 = i := congrArg Prod.fst hpair
          have h2 := congrArg (fun p => (Prod.snd p).type) hpair
          simp only at h1 h2
          subst h1
          exact ⟨hlo, by omega, h2.symm⟩

theorem py_extract_key_range {content : List Char} {i : Nat} {rec : CommentInfo}
    (h : (i, rec) ∈ PythonCommentExtractor.extract_comments content) :
    1 ≤ i ∧ i ≤ (splitNl content).length := by
  unfold PythonCommentExtractor.extract_comments at h
  rw [List.mem_append] at h
  rcases h with h | h
  · exact ⟨(py_docstring_key_range h).1, (py_docstring_key_range h).2.1⟩
  · exact ⟨(py_inline_key_range h).1, (py_inline_key_range h).2.1⟩

theorem cStyle_applyEdit_ok {lines : List (List Char)} {L : Nat} {t : List Char}
    {info : CommentInfo} (hL : 1 ≤ L) (hlen : L ≤ lines.length) :
    ∃ lines', CStyleCommentExtractor.applyEdit lines L t info = Except.ok lines' ∧
      L ≤ lines'.length := by
  unfold CStyleCommentExtractor.applyEdit
  by_cases htype : info.type = CommentType.inline
  · rw [if_pos htype]
    have hidx : L - 1 < lines.length := by omega
    obtain ⟨line, hline⟩ : ∃ line, lines.get? (L - 1) = some line := by
      rw [List.get?_eq_getElem?]
      exact ⟨lines[L - 1], List.getElem?_eq_some_iff.2 ⟨hidx, rfl⟩⟩
    rw [hline]
    dsimp only
    by_cases hc : info.has_code = true
    · rw [if_pos hc]
      exact ⟨_, rfl, by rw [List.length_set]; omega⟩
    · rw [if_neg hc]
      exact ⟨_, rfl, by rw [List.length_set]; omega⟩
  · rw [if_neg htype]
    refine ⟨_, rfl, ?_⟩
    rw [List.length_append, List.length_append, List.length_take, List.length_cons,
      List.length_append]
    have := splitNl_ne_nil t
    have hpos : 1 ≤ (splitNl t).length := by
      cases hsp : splitNl t with
      | nil => exact absurd hsp (splitNl_ne_nil t)
      | cons a as => simp
    rw [List.length_map]
    simp only [List.length_cons, List.length_nil]
    omega

theorem py_applyEdit_ok {lines : List (List Char)} {L : Nat} {t : List Char}
    {info : CommentInfo} (hL : 1 ≤ L) (hlen : L ≤ lines.length) :
    ∃ lines', PythonCommentExtractor.applyEdit lines L t info = Except.ok lines' ∧
      L ≤ lines'.length := by
  unfold PythonCommentExtractor.applyEdit
  by_cases htype : info.type = CommentType.inline
  · rw [if_pos htype]
    have hidx : L - 1 < lines.length := by omega
    obtain ⟨line, hline⟩ : ∃ line, lines.get? (L - 1) = some line := by
      rw [List.get?_eq_getElem?]
      exact ⟨lines[L - 1], List.getElem?_eq_some_iff.2 ⟨hidx, rfl⟩⟩
    rw [hline]
    dsimp only
    by_cases hc : info.has_code = true
    · rw [if_pos hc]
      exact ⟨_, rfl, by rw [List.length_set]; omega⟩
    · rw [if_neg hc]
      exact ⟨_, rfl, by rw [List.length_set]; omega⟩
  · rw [if_neg htype]
    refine ⟨_, rfl, ?_⟩
    rw [List.length_append, List.length_append, List.length_take, List.length_cons,
      List.length_append]
    have hpos : 1 ≤ (splitNl t).length := by
      cases hsp : splitNl t with
      | nil => exact absurd hsp (splitNl_ne_nil t)
      | cons a as => simp
    rw [List.length_map]
    simp only [List.length_cons, List.length_nil]
    omega

theorem cStyle_foldlM_ok (content : List Char) :
    ∀ (xs : List (Nat × List Char)) (lines : List (List Char)),
      List.Pairwise (fun a b : Nat × List Char => b.1 ≤ a.1) xs →
      (∀ k t, (k, t) ∈ xs →
        (∃ v, dget (CStyleCommentExtractor.extract_comments content) k = some v) ∧
          1 ≤ k ∧ k ≤ lines.length) →
      ∃ out, xs.foldlM (CStyleCommentExtractor.replaceStep content) lines = Except.ok out := by
  intro xs
  induction xs with
  | nil => exact fun lines _ _ => ⟨lines, rfl⟩
  | cons p rest ih =>
    intro lines hpw hkeys
    rcases p with ⟨L, t⟩
    obtain ⟨⟨v, hv⟩, hL, hlen⟩ := hkeys L t (List.mem_cons_self _ _)
    obtain ⟨lines', hply, hlen'⟩ := @cStyle_applyEdit_ok lines L t v hL hlen
    rw [List.pairwise_cons] at hpw
    obtain ⟨out, hout⟩ := ih lines' hpw.2 (by
      intro k t' hk
      obtain ⟨hsome, hk1, _⟩ := hkeys k t' (List.mem_cons_of_mem _ hk)
      have hkL : k ≤ L := hpw.1 (k, t') hk
      exact ⟨hsome, hk1, by omega⟩)
    refine ⟨out, ?_⟩
    rw [List.foldlM_cons]
    have hstep : CStyleCommentExtractor.replaceStep content lines (L, t) =
        Except.ok lines' := by
      unfold CStyleCommentExtractor.replaceStep
      rw [hv]
      exact hply
    rw [hstep]
    exact hout

theorem py_foldlM_ok (content : List Char) :
    ∀ (xs : List (Nat × List Char)) (lines : List (List Char)),
      List.Pairwise (fun a b : Nat × List Char => b.1 ≤ a.1) xs →
      (∀ k t, (k, t) ∈ xs →
        (∃ v, dget (PythonCommentExtractor.extract_comments content) k = some v) ∧
          1 ≤ k ∧ k ≤ lines.length) →
      ∃ out, xs.foldlM (PythonCommentExtractor.replaceStep content) lines = Except.ok out := by
  intro xs
  induction xs with
  | nil => exact fun lines _ _ => ⟨lines, rfl⟩
  | cons p rest ih =>
    intro lines hpw hkeys
    rcases p with ⟨L, t⟩
    obtain ⟨⟨v, hv⟩, hL, hlen⟩ := hkeys L t (List.mem_cons_self _ _)
    obtain ⟨lines', hply, hlen'⟩ := @py_applyEdit_ok lines L t v hL hlen
    rw [List.pairwise_cons] at hpw
    obtain ⟨out, hout⟩ := ih lines' hpw.2 (by
      intro k t' hk
      obtain ⟨hsome, hk1, _⟩ := hkeys k t' (List.mem_cons_of_mem _ hk)
      have hkL : k ≤ L := hpw.1 (k, t') hk
      exact ⟨hsome, hk1, by omega⟩)
    refine ⟨out, ?_⟩
    rw [List.foldlM_cons]
    have hstep : PythonCommentExtractor.replaceStep content lines (L, t) =
        Except.ok lines' := by
      unfold PythonCommentExtractor.replaceStep
      rw [hv]
      exact hply
    rw [hstep]
    exact hout

theorem cStyle_foldlM_error (content : List Char) :
    ∀ (xs : List (Nat × List Char)) (lines : List (List Char)),
      (∃ k t, (k, t) ∈ xs ∧ dget (CStyleCommentExtractor.extract_comments content) k = none) →
      ∃ e, xs.foldlM (CStyleCommentExtractor.replaceStep content) lines = Except.error e := by
  intro xs
  induction xs with
  | nil =>
    intro lines ⟨k, t, hk, _⟩
    cases hk
  | cons p rest ih =>
    intro lines ⟨k, t, hk, hnone⟩
    rcases p with ⟨L, tL⟩
    rw [List.foldlM_cons]
    by_cases hdL : dget (CStyleCommentExtractor.extract_comments content) L = none
    · refine ⟨L, ?_⟩
      have hstep : CStyleCommentExtractor.replaceStep content lines (L, tL) =
          Except.error L := by
        unfold CStyleCommentExtractor.replaceStep
        rw [hdL]
      rw [hstep]
      rfl
    · have hkr : (k, t) ∈ rest := by
        rcases List.mem_cons.1 hk with heq | hr
        · injection heq with h1 h2
          rw [h1] at hnone
          exact absurd hnone hdL
        · exact hr
      obtain ⟨v, hv⟩ := Option.ne_none_iff_exists'.1 hdL
      cases hply : CStyleCommentExtractor.applyEdit lines L tL v with
      | ok lines' =>
        obtain ⟨e, he⟩ := ih lines' ⟨k, t, hkr, hnone⟩
        refine ⟨e, ?_⟩
        have hstep : CStyleCommentExtractor.replaceStep content lines (L, tL) =
            Except.ok lines' := by
          unfold CStyleCommentExtractor.replaceStep
          rw [hv]
          exact hply
        rw [hstep]
        exact he
      | error e =>
        refine ⟨e, ?_⟩
        have hstep : CStyleCommentExtractor.replaceStep content lines (L, tL) =
            Except.error e := by
          unfold CStyleCommentExtractor.replaceStep
          rw [hv]
          exact hply
        rw [hstep]
        rfl

theorem py_foldlM_error (content : List Char) :
    ∀ (xs : List (Nat × List Char)) (lines : List (List Char)),
      (∃ k t, (k, t) ∈ xs ∧ dget (PythonCommentExtractor.extract_comments content) k = none) →
      ∃ e, xs.foldlM (PythonCommentExtractor.replaceStep content) lines = Except.error e := by
  intro xs
  induction xs with
  | nil =>
    intro lines ⟨k, t, hk, _⟩
    cases hk
  | cons p rest ih =>
    intro lines ⟨k, t, hk, hnone⟩
    rcases p with ⟨L, tL⟩
    rw [List.foldlM_cons]
    by_cases hdL : dget (PythonCommentExtractor.extract_comments content) L = none
    · refine ⟨L, ?_⟩
      have hstep : PythonCommentExtractor.replaceStep content lines (L, tL) =
          Except.error L := by
        unfold PythonCommentExtractor.replaceStep
        rw [hdL]
      rw [hstep]
      rfl
    · have hkr : (k, t) ∈ rest := by
        rcases List.mem_cons.1 hk with heq | hr
        · injection heq with h1 h2
          rw [h1] at hnone
          exact absurd hnone hdL
        · exact hr
      obtain ⟨v, hv⟩ := Option.ne_none_iff_exists'.1 hdL
      cases hply : PythonCommentExtractor.applyEdit lines L tL v with
      | ok lines' =>
        obtain ⟨e, he⟩ := ih lines' ⟨k, t, hkr, hnone⟩
        refine ⟨e, ?_⟩
        have hstep : PythonCommentExtractor.replaceStep content lines (L, tL) =
            Except.ok lines' := by
          unfold PythonCommentExtractor.replaceStep
          rw [hv]
          exact hply
        rw [hstep]
        exact he
      | error e =>
        refine ⟨e, ?_⟩
        have hstep : PythonCommentExtractor.replaceStep content lines (L, tL) =
            Except.error e := by
          unfold PythonCommentExtractor.replaceStep
          rw [hv]
          exact hply
        rw [hstep]
        rfl

/-- C10: the extractor-level replace_comments is total exactly under the
precondition that every translation key is a key of the extraction of the
current content.  When some key is absent, the unguarded dictionary lookup
raises (the KeyError of the source, an error value here), for both variants;
the FileDetector wrapper catches the exception and returns False instead of
propagating it.  When every key is present, the replacement runs to
completion without raising. -/
theorem c10_missing_key_raises_wrapper_catches :
    (∀ (content : List Char) (ts : List (Nat × List Char)),
        (∃ k t, (k, t) ∈ ts ∧
            dget (CStyleCommentExtractor.extract_comments content) k = none) →
        (∃ e, CStyleCommentExtractor.replace_comments content ts = Except.error e) ∧
        FileDetector.replace_comments ("f.c".toList) content ts = false) ∧
    (∀ (content : List Char) (ts : List (Nat × List Char)),
        (∃ k t, (k, t) ∈ ts ∧
            dget (PythonCommentExtractor.extract_comments content) k = none) →
        (∃ e, PythonCommentExtractor.replace_comments content ts = Except.error e) ∧
        FileDetector.replace_comments ("f.py".toList) content ts = false) ∧
    (∀ (content : List Char) (ts : List (Nat × List Char)),
        (∀ k t, (k, t) ∈ ts →
            ∃ v, dget (CStyleCommentExtractor.extract_comments content) k = some v) →
        ∃ out, CStyleCommentExtractor.replace_comments content ts = Except.ok out) ∧
    (∀ (content : List Char) (ts : List (Nat × List Char)),
        (∀ k t, (k, t) ∈ ts →
            ∃ v, dget (PythonCommentExtractor.extract_comments content) k = some v) →
        ∃ out, PythonCommentExtractor.replace_comments content ts = Except.ok out) := by
  refine ⟨?_, ?_, ?_, ?_⟩
  · intro content ts ⟨k, t, hk, hnone⟩
    obtain ⟨e, he⟩ := cStyle_foldlM_error content (sortDescend ts) (splitNl content)
      ⟨k, t, mem_sortDescend.2 hk, hnone⟩
    have hrep : CStyleCommentExtractor.replace_comments content ts = Except.error e := by
      unfold CStyleCommentExtractor.replace_comments
      rw [he]
      rfl
    refine ⟨⟨e, hrep⟩, ?_⟩
    show (match CStyleCommentExtractor.replace_comments content ts with
      | Except.ok _ => true
      | Except.error _ => false) = false
    rw [hrep]
  · intro content ts ⟨k, t, hk, hnone⟩
    obtain ⟨e, he⟩ := py_foldlM_error content (sortDescend ts) (splitNl content)
      ⟨k, t, mem_sortDescend.2 hk, hnone⟩
    have hrep : PythonCommentExtractor.replace_comments content ts = Except.error e := by
      unfold PythonCommentExtractor.replace_comments
      rw [he]
      rfl
    refine ⟨⟨e, hrep⟩, ?_⟩
    show (match PythonCommentExtractor.replace_comments content ts with
      | Except.ok _ => true
      | Except.error _ => false) = false
    rw [hrep]
  · intro content ts hall
    obtain ⟨out, hout⟩ := cStyle_foldlM_ok content (sortDescend ts) (splitNl content)
      (sortDescend_pairwise ts) (by
        intro k t hk
        obtain ⟨v, hv⟩ := hall k t (mem_sortDescend.1 hk)
        obtain ⟨h1, h2⟩ := cStyle_extract_key_range (dget_mem hv)
        exact ⟨⟨v, hv⟩, h1, h2⟩)
    refine ⟨joinNl out, ?_⟩
    unfold CStyleCommentExtractor.replace_comments
    rw [hout]
    rfl
  · intro content ts hall
    obtain ⟨out, hout⟩ := py_foldlM_ok content (sortDescend ts) (splitNl content)
      (sortDescend_pairwise ts) (by
        intro k t hk
        obtain ⟨v, hv⟩ := hall k t (mem_sortDescend.1 hk)
        obtain ⟨h1, h2⟩ := py_extract_key_range (dget_mem hv)
        exact ⟨⟨v, hv⟩, h1, h2⟩)
    refine ⟨joinNl out, ?_⟩
    unfold PythonCommentExtractor.replace_comments
    rw [hout]
    rfl

/-- C10 witness: the theorem applied at concrete inputs, one per conjunct:
a missing key 5 makes both extractor replacements raise and both wrapper
calls return False; with the one valid key both replacements succeed. -/
theorem c10_missing_key_raises_wrapper_catches_witness :
    (∃ e, CStyleCommentExtractor.replace_comments ("// a".toList) [(5, "x".toList)] =
        Except.error e) ∧
    FileDetector.replace_comments ("f.c".toList) ("// a".toList) [(5, "x".toList)] = false ∧
    (∃ e, PythonCommentExtractor.replace_comments ("# a".toList) [(5, "x".toList)] =
        Except.error e) ∧
    FileDetector.replace_comments ("f.py".toList) ("# a".toList) [(5, "x".toList)] = false ∧
    (∃ out, CStyleCommentExtractor.replace_comments ("// a".toList) [(1, "hello".toList)] =
        Except.ok out) ∧
    (∃ out, PythonCommentExtractor.replace_comments ("# a".toList) [(1, "hello".toList)] =
        Except.ok out) := by
  obtain ⟨h1, h2⟩ := c10_missing_key_raises_wrapper_catches.1 ("// a".toList)
    [(5, "x".toList)] ⟨5, "x".toList, List.mem_singleton.2 rfl, by decide⟩
  obtain ⟨h3, h4⟩ := c10_missing_key_raises_wrapper_catches.2.1 ("# a".toList)
    [(5, "x".toList)] ⟨5, "x".toList, List.mem_singleton.2 rfl, by decide⟩
  refine ⟨h1, h2, h3, h4, ?_, ?_⟩
  · refine c10_missing_key_raises_wrapper_catches.2.2.1 ("// a".toList)
      [(1, "hello".toList)] ?_
    intro k t hk
    rw [List.mem_singleton] at hk
    injection hk with hk1 hk2
    subst hk1
    exact Option.ne_none_iff_exists'.mp (by decide)
  · refine c10_missing_key_raises_wrapper_catches.2.2.2 ("# a".toList)
      [(1, "hello".toList)] ?_
    intro k t hk
    rw [List.mem_singleton] at hk
    injection hk with hk1 hk2
    subst hk1
    exact Option.ne_none_iff_exists'.mp (by decide)

theorem cStyle_replace_single {content t : List Char} {L : Nat}
    {res : List (List Char)}
    (h : CStyleCommentExtractor.replaceStep content (splitNl content) (L, t) =
      Except.ok res) :
    CStyleCommentExtractor.replace_comments content [(L, t)] =
      Except.ok (joinNl res) := by
  unfold CStyleCommentExtractor.replace_comments
  show (do
    let lines ← List.foldlM (CStyleCommentExtractor.replaceStep content)
      (splitNl content) [(L, t)]
    pure (joinNl lines) : Except Nat (List Char)) = _
  rw [List.foldlM_cons, h]
  rfl

theorem py_replace_single {content t : List Char} {L : Nat}
    {res : List (List Char)}
    (h : PythonCommentExtractor.replaceStep content (splitNl content) (L, t) =
      Except.ok res) :
    PythonCommentExtractor.replace_comments content [(L, t)] =
      Except.ok (joinNl res) := by
  unfold PythonCommentExtractor.replace_comments
  show (do
    let lines ← List.foldlM (PythonCommentExtractor.replaceStep content)
      (splitNl content) [(L, t)]
    pure (joinNl lines) : Except Nat (List Char)) = _
  rw [List.foldlM_cons, h]
  rfl

/-- C2 counterexample: replacing the single multiline comment of the line
int x; /* c */ rewrites the ENTIRE line: the code int x; that precedes the
comment on its opening line (bytes outside the translated span, which the
record places at columns 7 to 14) is replaced by indentation and does not
appear in the output, refuting byte-exactness outside the translated span. -/
theorem c2_counterexample_opening_line_code_lost :
    (dget (CStyleCommentExtractor.extract_comments ("int x; /* c */".toList)) 1).map
        (fun i => (i.type, i.start, i.positions)) =
      some (CommentType.multiline, 7, (7, 14)) ∧
    CStyleCommentExtractor.replace_comments ("int x; /* c */".toList) [(1, "t".toList)] =
      Except.ok ("       /*\n        * t\n        */".toList) ∧
    ("int x;".toList).isPrefixOf ("int x; /* c */".toList) = true ∧
    containsSub ("int x;".toList) ("       /*\n        * t\n        */".toList) = false := by
  refine ⟨by decide, by rfl, by decide, by decide⟩

/-- C2 (amended): for a single translated comment the replacement is
line-exact rather than byte-exact outside the translated span: an inline
record rewrites only its own line, preserving the code prefix before the
marker when has_code is set; a multiline or docstring record replaces its
entire original line span — including any code sharing the opening or
closing line with the comment — by a freshly formatted block; every line
outside the edited span is reproduced verbatim (it appears unchanged inside
the set or take-append-drop image being joined). -/
theorem c2_frame_single_translation_amended :
    (∀ (content t : List Char) (L : Nat) (info : CommentInfo),
        dget (CStyleCommentExtractor.extract_comments content) L = some info →
        (info.type = CommentType.inline →
          CStyleCommentExtractor.replace_comments content [(L, t)] =
            Except.ok (joinNl ((splitNl content).set (L - 1)
              (if info.has_code then
                ((splitNl content).getD (L - 1) []).take info.start ++
                  "// ".toList ++ pyStrip t
              else
                List.replicate info.start ' ' ++ "// ".toList ++ pyStrip t)))) ∧
        (info.type ≠ CommentType.inline →
          CStyleCommentExtractor.replace_comments content [(L, t)] =
            Except.ok (joinNl ((splitNl content).take (L - 1) ++
              ((List.replicate info.start ' ' ++ "/*".toList) ::
                ((splitNl t).map
                  (fun ln => List.replicate info.start ' ' ++ " * ".toList ++ pyStrip ln) ++
                  [List.replicate info.start ' ' ++ " */".toList])) ++
              (splitNl content).drop (L - 1 + info.line_count))))) ∧
    (∀ (content t : List Char) (L : Nat) (info : CommentInfo),
        dget (PythonCommentExtractor.extract_comments content) L = some info →
        (info.type = CommentType.inline →
          PythonCommentExtractor.replace_comments content [(L, t)] =
            Except.ok (joinNl ((splitNl content).set (L - 1)
              (if info.has_code then
                ((splitNl content).getD (L - 1) []).take info.start ++
                  "# ".toList ++ pyStrip t
              else
                List.replicate info.start ' ' ++ "# ".toList ++ pyStrip t)))) ∧
        (info.type ≠ CommentType.inline →
          PythonCommentExtractor.replace_comments content [(L, t)] =
            Except.ok (joinNl ((splitNl content).take (L - 1) ++
              ((List.replicate info.start ' ' ++ info.quote_type) ::
                ((splitNl t).map (fun ln => List.replicate info.start ' ' ++ pyStrip ln) ++
                  [List.replicate info.start ' ' ++ info.quote_type])) ++
              (splitNl content).drop (L - 1 + info.line_count))))) := by
  constructor
  · intro content t L info hd
    obtain ⟨h1, h2⟩ := cStyle_extract_key_range (dget_mem hd)
    have hidx : L - 1 < (splitNl content).length := by omega
    have hget : (splitNl content).get? (L - 1) =
        some ((splitNl content).getD (L - 1) []) := by
      rw [List.get?_eq_getElem?, List.getD_eq_getElem _ _ hidx]
      exact List.getElem?_eq_some_iff.2 ⟨hidx, rfl⟩
    constructor
    · intro htype
      refine cStyle_replace_single ?_
      unfold CStyleCommentExtractor.replaceStep
      rw [hd]
      dsimp only
      unfold CStyleCommentExtractor.applyEdit
      rw [if_pos htype, hget]
      dsimp only
      by_cases hc : info.has_code = true
      · rw [if_pos hc, if_pos hc]
      · rw [if_neg hc, if_neg (by simpa using hc)]
    · intro htype
      refine cStyle_replace_single ?_
      unfold CStyleCommentExtractor.replaceStep
      rw [hd]
      dsimp only
      unfold CStyleCommentExtractor.applyEdit
      rw [if_neg htype]
  · intro content t L info hd
    obtain ⟨h1, h2⟩ := py_extract_key_range (dget_mem hd)
    have hidx : L - 1 < (splitNl content).length := by omega
    have hget : (splitNl content).get? (L - 1) =
        some ((splitNl content).getD (L - 1) []) := by
      rw [List.get?_eq_getElem?, List.getD_eq_getElem _ _ hidx]
      exact List.getElem?_eq_some_iff.2 ⟨hidx, rfl⟩
    constructor
    · intro htype
      refine py_replace_single ?_
      unfold PythonCommentExtractor.replaceStep
      rw [hd]
      dsimp only
      unfold PythonCommentExtractor.applyEdit
      rw [if_pos htype, hget]
      dsimp only
      by_cases hc : info.has_code = true
      · rw [if_pos hc, if_pos hc]
      · rw [if_neg hc, if_neg (by simpa using hc)]
    · intro htype
      refine py_replace_single ?_
      unfold PythonCommentExtractor.replaceStep
      rw [hd]
      dsimp only
      unfold PythonCommentExtractor.applyEdit
      rw [if_neg htype]

/-- C2 witness: the amended theorem applied at concrete inputs — an inline
comment with a code prefix, whose prefix int x = 1; survives verbatim, and
the multiline comment of the counterexample, whose whole line is rebuilt. -/
theorem c2_frame_single_translation_amended_witness :
    CStyleCommentExtractor.replace_comments ("int x = 1; // old".toList)
        [(1, "new".toList)] = Except.ok ("int x = 1; // new".toList) ∧
    CStyleCommentExtractor.replace_comments ("int x; /* c */".toList)
        [(1, "t".toList)] =
      Except.ok ("       /*\n        * t\n        */".toList) ∧
    PythonCommentExtractor.replace_comments ("def f():\n    \"\"\"doc\"\"\"\nreturn".toList)
        [(2, "neu".toList)] =
      Except.ok ("def f():\n    \"\"\"\n    neu\n    \"\"\"\nreturn".toList) := by
  refine ⟨?_, ?_, ?_⟩
  · have h := (c2_frame_single_translation_amended.1 ("int x = 1; // old".toList)
      ("new".toList) 1
      { content := "old".toList, start := 11, stop := 17, original := "// old".toList,
        type := CommentType.inline, has_code := true } (by decide)).1 (by decide)
    rw [h]
    rfl
  · have h := (c2_frame_single_translation_amended.1 ("int x; /* c */".toList)
      ("t".toList) 1
      { content := "c".toList, start := 7, stop := 14, original := "/* c */".toList,
        type := CommentType.multiline, positions := (7, 14), line_count := 1 }
      (by decide)).2 (by decide)
    rw [h]
    rfl
  · have h := (c2_frame_single_translation_amended.2
      ("def f():\n    \"\"\"doc\"\"\"\nreturn".toList) ("neu".toList) 2
      { content := "doc".toList, start := 4, stop := 22,
        original := "\"\"\"doc\"\"\"".toList, type := CommentType.docstring,
        quote_type := "\"\"\"".toList, line_count := 1 } (by decide)).2 (by decide)
    rw [h]
    rfl

end CodeCommentTranslator
